import Mathlib

/-!
Verification of the tag-tree synthesis engine of the obsidian-tagfolder
repository, shallowly embedded from `src/main.ts`.  Helpers that live in the
repository's `util`/`types` modules (not shipped with the sources) are
modelled from the specification and marked as such in their doc comments.
-/

namespace TagFolder

/-!
JS string primitives, transcribed structurally over the character list of
`String` (the position-based core `String` functions are extensionally
equivalent on our ASCII inputs, but do not reduce inside the kernel).
-/

/-- Does `needle` occur as a contiguous run inside `hay`? -/
def subListOf (needle : List Char) : List Char → Bool
  | [] => needle.isEmpty
  | c :: cs => needle.isPrefixOf (c :: cs) || subListOf needle cs

/-- JS `String.prototype.contains` (Obsidian's polyfill for `includes`):
substring containment. -/
def strContains (hay needle : String) : Bool :=
  subListOf needle.data hay.data

/-- `split` on a one-character separator (every `split` in `src/main.ts` uses
a single-character separator); JS semantics: `"".split(c) = [""]`. -/
def splitChar (sep : Char) : List Char → List (List Char)
  | [] => [[]]
  | c :: cs =>
    let r := splitChar sep cs
    if c = sep then [] :: r
    else
      match r with
      | [] => [[c]]
      | h :: t => (c :: h) :: t

/-- JS `s.split(sep)` for a one-character separator. -/
def jsSplit (s : String) (sep : Char) : List String :=
  (splitChar sep s.data).map (fun l => String.mk l)

/-- JS `s.replace(/c/g, '')`: global removal of one character. -/
def removeChar (c : Char) (s : String) : String :=
  String.mk (s.data.filter (fun x => x ≠ c))

/-- JS `s.toLowerCase()` (ASCII). -/
def jsToLower (s : String) : String :=
  String.mk (s.data.map Char.toLower)

/-- JS `s.trim()` (our inputs only carry plain spaces/newlines). -/
def jsTrim (s : String) : String :=
  String.mk (((s.data.dropWhile Char.isWhitespace).reverse.dropWhile
    Char.isWhitespace).reverse)

/-- JS `s.startsWith(p)`. -/
def jsStartsWith (s p : String) : Bool :=
  p.data.isPrefixOf s.data

/-- JS `s.substring(n)`. -/
def jsDrop (s : String) (n : Nat) : String :=
  String.mk (s.data.drop n)

/-- JS `Array.prototype.join(sep)`. -/
def jsJoin (sep : String) : List String → String
  | [] => ""
  | [x] => x
  | x :: xs => x ++ sep ++ jsJoin sep xs

/-- Modelled from the spec: `unique` from the repository's util module (not
under `src/`); deduplication via `new Set`, preserving the first occurrence. -/
def unique {α : Type} [DecidableEq α] (l : List α) : List α :=
  l.foldl (fun acc x => if x ∈ acc then acc else acc ++ [x]) []

/-- Modelled from the spec: `uniqueCaseIntensive` from the repository's util
module (not under `src/`); deduplicate case-insensitively, preserving
first-seen casing (spec section 4.2 step 6). -/
def uniqueCaseIntensive (l : List String) : List String :=
  l.foldl (fun acc x =>
    if acc.any (fun y => jsToLower y = jsToLower x) then acc else acc ++ [x]) []

/-- Lexicographic order on character lists. -/
def charListLt : List Char → List Char → Bool
  | [], [] => false
  | [], _ :: _ => true
  | _ :: _, [] => false
  | a :: as, b :: bs => a < b || (a = b && charListLt as bs)

/-- Modelled from the spec: `compare` from the repository's util module (not
under `src/`); the Comparator's base string comparison (spec section 4.5),
returning -1/0/1. -/
def compare (a b : String) : Int :=
  if charListLt a.data b.data then -1
  else if charListLt b.data a.data then 1
  else 0

/-- Modelled from the spec: `secondsToFreshness` from the repository's util
module (not under `src/`); buckets `now - mtime` (milliseconds) into discrete
human-meaningful ranges (spec section 4.2 step 5). -/
def secondsToFreshness (diff : Int) : String :=
  if diff < 86400000 then "today"
  else if diff < 604800000 then "this week"
  else if diff < 2592000000 then "this month"
  else "older"

/-- Symmetric difference of two lists viewed as sets of paths (used to state
the link-invalidation property of spec section 4.1). -/
def symmDiff {α : Type} [DecidableEq α] (a b : List α) : List α :=
  a.filter (fun x => !(b.contains x)) ++ b.filter (fun x => !(a.contains x))

/-! ## Data model (`src/main.ts`, `types` interface) -/

/-- Obsidian `TFile.stat` projection: the timestamps the engine reads. -/
structure FileStat where
  mtime : Int
  ctime : Int
deriving DecidableEq

/-- The slice of Obsidian's `TFile` that `src/main.ts` reads. -/
structure TFile where
  path : String
  basename : String
  extension : String
  stat : FileStat
deriving DecidableEq

/-- `FileCache` from the `types` module as populated by `getFileCacheData`:
the per-document fact record `{file, links, tags}`. -/
structure FileCache where
  file : TFile
  links : List String
  tags : List String
deriving DecidableEq

/-- `ViewItem` from the `types` module, as constructed in `getItemsList`. -/
structure ViewItem where
  tags : List String
  extraTags : List String
  path : String
  displayName : String
  ancestors : List String
  mtime : Int
  ctime : Int
  filename : String
  links : List String
deriving DecidableEq

/-- The subset of `TagFolderSettings` that the embedded functions read. -/
structure Settings where
  displayMethod : String := "PATH/NAME"
  useTitle : Bool := false
  sortType : String := "DISPNAME_ASC"
  useTagInfo : Bool := false
  disableNarrowingDown : Bool := false
  disableNestedTags : Bool := false
  useVirtualTag : Bool := false
  displayFolderAsTag : Bool := false
  ignoreDocTags : String := ""
  ignoreTags : String := ""
  ignoreFolders : String := ""
  targetFolders : String := ""
  archiveTags : String := ""
deriving DecidableEq

/-- One entry of `TagInfoDict`; only the `redirect` field influences
`getItemsList`. -/
structure TagInfo where
  redirect : Option String := none
deriving DecidableEq

/-- The two tree modes of `getItemsList`. -/
inductive Mode
  | tag
  | link
deriving DecidableEq

/-! ## `getItemsList` pipeline (`src/main.ts` lines 553-709) -/

/-- `settings.ignoreDocTags.toLowerCase().replace(/[\n ]/g, '').split(',')`
(same shape for `ignoreTags` and `archiveTags`). -/
def parseCommaNoSpace (s : String) : List String :=
  jsSplit (removeChar ' ' (removeChar '\n' (jsToLower s))) ','

/-- `settings.ignoreFolders.toLowerCase().replace(/\n/g, '').split(',')
.map(trim).filter(e => !!e)` (same shape for `targetFolders`). -/
def parseFolders (s : String) : List String :=
  (((jsSplit (removeChar '\n' (jsToLower s)) ',').map (fun e => jsTrim e))).filter
    (fun e => e ≠ "")

/-- The `tagRedirectList` built at the top of the per-file loop: redirect
entries of `this.tagInfo` when `useTagInfo` is active.  JS truthiness of
`taginfo?.redirect` drops both absent and empty-string redirects.  (JS object
keys are unique, so first-match lookup below is faithful.) -/
def redirectPairs (cfg : Settings) (ti : List (String × TagInfo)) :
    List (String × String) :=
  if cfg.useTagInfo then
    ti.filterMap (fun kt =>
      match kt.2.redirect with
      | some r => if r ≠ "" then some (kt.1, r) else none
      | none => none)
  else []

/-- `e in tagRedirectList ? tagRedirectList[e] : e` -/
def applyRedirect (R : List (String × String)) (t : String) : String :=
  match List.lookup t R with
  | some r => r
  | none => t

/-- Lines 603-605: strip the `#` marker from the (deduplicated) raw tags and
apply the first round of redirection. -/
def rawTagsRedirected (R : List (String × String)) (fc : FileCache) :
    List String :=
  unique (((unique fc.tags).map (fun e => jsDrop e 1)).map
    (fun e => applyRedirect R e))

/-- Lines 601-619: mode selection, nested-tag flattening, and the
`_untagged` / `_unlinked` sentinel substitution. -/
def baseTagsForMode (cfg : Settings) (R : List (String × String)) (mode : Mode)
    (fc : FileCache) : List String :=
  let allTags := if mode = Mode.tag then rawTagsRedirected R fc
    else unique fc.links
  let allTags := if cfg.disableNestedTags = true ∧ mode = Mode.tag then
      (allTags.map (fun e => jsSplit e '/')).flatten
    else allTags
  if allTags.isEmpty then
    (if mode = Mode.tag then ["_untagged"] else ["_unlinked"])
  else allTags

/-- Lines 620-636: virtual tag injection (canvas marker, freshness bucket,
folder-as-tag). -/
def tagsWithVirtual (cfg : Settings) (today : Int) (fc : FileCache)
    (l : List String) : List String :=
  let l := if fc.file.extension = "canvas" then l ++ ["_VIRTUAL_TAG_CANVAS"]
    else l
  let l := if cfg.useVirtualTag then
      l ++ ["_VIRTUAL_TAG_FRESHNESS/" ++
        secondsToFreshness (today - fc.file.stat.mtime)]
    else l
  if cfg.displayFolderAsTag then
    let path := ("_VIRTUAL_TAG_FOLDER" :: jsSplit fc.file.path '/').dropLast
    if path.length > 0 then l ++ [jsJoin "/" path] else l
  else l

/-- Line 639: the second round of redirection over the combined tag set,
followed by case-insensitive deduplication. -/
def tagsPreFilter (cfg : Settings) (ti : List (String × TagInfo)) (today : Int)
    (mode : Mode) (fc : FileCache) : List String :=
  uniqueCaseIntensive
    ((tagsWithVirtual cfg today fc
        (baseTagsForMode cfg (redirectPairs cfg ti) mode fc)).map
      (fun e => applyRedirect (redirectPairs cfg ti) e))

/-- Lines 579-590: the target-folders allow list and ignore-folders deny
list, both matched as case-insensitive path prefixes. -/
def skippedByFolders (cfg : Settings) (path : String) : Bool :=
  let targetFolders := parseFolders cfg.targetFolders
  let ignoreFolders := parseFolders cfg.ignoreFolders
  (decide (targetFolders.length > 0) &&
    !(targetFolders.any (fun e =>
        decide (e ≠ "") && jsStartsWith (jsToLower path) e))) ||
  ignoreFolders.any (fun e => decide (e ≠ "") && jsStartsWith (jsToLower path) e)

/-- Lines 641-643: a document is excluded when any resolved tag is in the
`ignoreDocTags` list. -/
def skippedByDocTags (cfg : Settings) (tagsPre : List String) : Bool :=
  tagsPre.any (fun tag => (parseCommaNoSpace cfg.ignoreDocTags).contains
    (jsToLower tag))

/-- `getFileTitle` (lines 196-210): the frontmatter/headings metadata lives in
the external document store (out of scope per spec section 1); with no
metadata available both the `useTitle` branch and the default fall back to the
basename. -/
def getFileTitle (_cfg : Settings) (f : TFile) : String := f.basename

/-- `getDisplayName` (lines 212-228). -/
def getDisplayName (cfg : Settings) (f : TFile) : String :=
  let filename := if getFileTitle cfg f = "" then f.basename
    else getFileTitle cfg f
  if cfg.displayMethod = "NAME" then filename
  else
    let displayPath := jsJoin "/" (jsSplit f.path '/').dropLast
    if cfg.displayMethod = "NAME : PATH" then filename ++ " : " ++ displayPath
    else if cfg.displayMethod = "PATH/NAME" then displayPath ++ "/" ++ filename
    else filename

/-- Lines 646-668: the free-text/tag search filter.  Each `|`-group votes to
exclude (`bx`); the document is skipped when every group votes to exclude. -/
def searchSkipped (search : String) (tagsPre : List String) (title : String) :
    Bool :=
  let searchItems := ((jsSplit (jsToLower search) '|').map
    (fun ee => (jsSplit ee ' ').map (fun e => jsTrim e)))
  let allTagsTitle := tagsPre ++ [title]
  let w := searchItems.map (fun searchItem =>
    if allTagsTitle.isEmpty then false
    else searchItem.foldl (fun bx searchSrc =>
      let hashed := jsStartsWith searchSrc "#"
      let search := if hashed then jsDrop searchSrc 1 else searchSrc
      let matchFn : String → String → Bool := fun tag pat =>
        if hashed then jsStartsWith tag pat else strContains tag pat
      if jsStartsWith search "-" then
        bx || allTagsTitle.any (fun tag => matchFn (jsToLower tag) (jsDrop search 1))
      else
        bx || allTagsTitle.all (fun tag => !(matchFn (jsToLower tag) search)))
      false)
  w.all (fun e => e)

/-- Line 670: drop tags present in the `ignoreTags` list. -/
def applyIgnoreTags (cfg : Settings) (tagsPre : List String) : List String :=
  tagsPre.filter (fun tag =>
    !((parseCommaNoSpace cfg.ignoreTags).contains (jsToLower tag)))

/-- The effective tag list of a document at the expansion point of
`getItemsList` (after both redirect rounds, virtual injection and the
ignore-tags filter). -/
def effTags (cfg : Settings) (ti : List (String × TagInfo)) (today : Int)
    (mode : Mode) (fc : FileCache) : List String :=
  applyIgnoreTags cfg (tagsPreFilter cfg ti today mode fc)

/-- The `ViewItem` record pushed by `getItemsList` (lines 682-705). -/
def mkViewItem (cfg : Settings) (fc : FileCache) (tags extra : List String) :
    ViewItem where
  tags := tags
  extraTags := extra
  path := fc.file.path
  displayName := getDisplayName cfg fc.file
  ancestors := []
  mtime := fc.file.stat.mtime
  ctime := fc.file.stat.ctime
  filename := fc.file.basename
  links := if fc.links.isEmpty then ["_unlinked"] else fc.links

/-- Lines 676-706: per-tag expansion (when `disableNarrowingDown` is set and
the mode is `tag`, restricted to matched archive tags when any) versus the
single-item default. -/
def expandItems (cfg : Settings) (mode : Mode) (allTags : List String)
    (fc : FileCache) : List ViewItem :=
  if cfg.disableNarrowingDown = true ∧ mode = Mode.tag then
    let archiveTags := parseCommaNoSpace cfg.archiveTags
    let matched := allTags.filter (fun e => archiveTags.contains (jsToLower e))
    let targetTags := if matched.isEmpty then allTags else matched
    targetTags.map (fun t =>
      mkViewItem cfg fc [t] (allTags.filter (fun e => e != t)))
  else
    [mkViewItem cfg fc allTags []]

/-- The contribution of one `fileCache` entry to `getItemsList`'s result
(the body of the `for` loop, lines 579-707). -/
def itemsForFile (cfg : Settings) (ti : List (String × TagInfo))
    (search : String) (today : Int) (mode : Mode) (fc : FileCache) :
    List ViewItem :=
  if skippedByFolders cfg fc.file.path then []
  else
    let pre := tagsPreFilter cfg ti today mode fc
    if skippedByDocTags cfg pre then []
    else if searchSkipped search pre (getFileTitle cfg fc.file) then []
    else expandItems cfg mode (applyIgnoreTags cfg pre) fc

/-- `getItemsList` (lines 553-709): the flat item list over all file caches. -/
def getItemsList (cfg : Settings) (ti : List (String × TagInfo))
    (search : String) (today : Int) (mode : Mode)
    (fileCaches : List FileCache) : List ViewItem :=
  fileCaches.flatMap (fun fc => itemsForFile cfg ti search today mode fc)

/-! ## Comparator (`getCompareMethodItems`, lines 91-113) -/

/-- `getCompareMethodItems`: selects the item comparator from
`settings.sortType`; the direction sign comes from
`sortType.contains('_DESC')` and the `default` branch reuses the display-name
comparator (the `console.warn` side effect is omitted). -/
def getCompareMethodItems (s : Settings) : ViewItem → ViewItem → Int :=
  let invert : Int := if strContains s.sortType "_DESC" then -1 else 1
  if s.sortType = "DISPNAME_ASC" ∨ s.sortType = "DISPNAME_DESC" then
    fun a b => compare a.displayName b.displayName * invert
  else if s.sortType = "FULLPATH_ASC" ∨ s.sortType = "FULLPATH_DESC" then
    fun a b => compare a.path b.path * invert
  else if s.sortType = "MTIME_ASC" ∨ s.sortType = "MTIME_DESC" then
    fun a b => (a.mtime - b.mtime) * invert
  else if s.sortType = "CTIME_ASC" ∨ s.sortType = "CTIME_DESC" then
    fun a b => (a.ctime - b.ctime) * invert
  else if s.sortType = "NAME_ASC" ∨ s.sortType = "NAME_DESC" then
    fun a b => compare a.filename b.filename * invert
  else
    fun a b => compare a.displayName b.displayName * invert

/-! ## `Array.prototype.sort` model

`applyFileInfoToView` publishes `items.sort(this.compareItems)`.  ECMAScript
(2019 onward) requires `sort` to be stable and to order the result by the
comparator; for a consistent comparator that determines the output uniquely,
so any stable sorting algorithm is an extensionally faithful model.  We use
stable insertion: an element is inserted before the first strictly greater
element, hence after every earlier element that compares equal. -/

/-- Insert `x` into `l`, before the first `y` with `cmp x y < 0`. -/
def insertJS {α : Type} (cmp : α → α → Int) (x : α) : List α → List α
  | [] => [x]
  | y :: ys => if cmp x y < 0 then x :: y :: ys else y :: insertJS cmp x ys

/-- Stable sort by a JS comparator (model of `Array.prototype.sort`). -/
def sortJS {α : Type} (cmp : α → α → Int) (l : List α) : List α :=
  l.foldl (fun acc x => insertJS cmp x acc) []

/-- `applyFileInfoToView` (lines 758-770), tag-mode half: the published
`allViewItems` list is the sorted output of `getItemsList('tag')` (the
link-mode half repeats the same computation for `allViewItemsByLink`). -/
def applyFileInfoToView (cfg : Settings) (ti : List (String × TagInfo))
    (search : String) (today : Int) (fileCaches : List FileCache) :
    List ViewItem :=
  sortJS (getCompareMethodItems cfg)
    (getItemsList cfg ti search today Mode.tag fileCaches)

/-! ## `updateFileCachesAll` (lines 484-493) -/

/-- The filter predicate of `updateFileCachesAll`, transcribed with JS
operator precedence: the source line
`this.parsedFileCache.get(file.path) ?? 0 != file.stat.mtime`
parses as `get(path) ?? (0 != mtime)` (nullish coalescing binds looser than
`!=`), and `Array.prototype.filter` then takes the truthiness of that value:
a present cache entry is kept iff the *recorded mtime* is a truthy number. -/
def processFilePred (parsed : List (String × Int)) (f : TFile) : Bool :=
  match List.lookup f.path parsed with
  | some v => decide (v ≠ 0)
  | none => decide ((0 : Int) ≠ f.stat.mtime)

/-- Modelled from the spec: the skip rule of spec section 4.1 ("comparing each
document's modification time against a previously recorded value to skip
unchanged documents"), i.e. the parenthesisation
`(parsedFileCache.get(path) ?? 0) != mtime`. -/
def specProcessFilePred (parsed : List (String × Int)) (f : TFile) : Bool :=
  decide ((List.lookup f.path parsed).getD 0 ≠ f.stat.mtime)

/-- The list of files `updateFileCachesAll` re-reads (and, since
`this.fileCaches` is rebuilt from exactly these, also the set whose caches
survive the rescan). -/
def updateFileCachesAllProc (parsed : List (String × Int))
    (files : List TFile) : List TFile :=
  files.filter (fun f => processFilePred parsed f)

/-! ## Link-invalidation sweep (`updateFileCaches`, lines 510-551)

The diff branch of `updateFileCaches` runs a do-while loop over a queue of
files: each file's cache entry is replaced, and (when a link view is active)
every path in the symmetric difference of its old and new link sets that
resolves to a vault file is enqueued.  Tags ride along in the cache entries
but never influence the loop's control flow. -/

/-- One entry of `this.fileCaches`, projected to the fields the sweep reads. -/
structure CacheEntry where
  path : String
  tags : List String
  links : List String
deriving DecidableEq

/-- The environment of one sweep: the vault's files (paths for which
`getAbstractFileByPath` yields a `TFile`), the current metadata snapshot
(`getFileCacheData`, `none` when the metadata cache has no entry), and whether
a link view is open (`getLinkView() != null`). -/
structure VaultModel where
  files : List String
  current : String → Option (List String × List String)
  linkViewActive : Bool

/-- The mutable state of the do-while loop: `newCaches` and `processDiffs`. -/
structure SweepState where
  caches : List CacheEntry
  queue : List String
deriving DecidableEq

/-- `newCaches.find(fileCache => fileCache.file.path == procDiff.path)`. -/
def entryFor (caches : List CacheEntry) (p : String) : Option CacheEntry :=
  caches.find? (fun c => c.path = p)

/-- The `(tags, links)` data recorded for `p`, for comparison against
`current`. -/
def entryData (caches : List CacheEntry) (p : String) :
    Option (List String × List String) :=
  (entryFor caches p).map (fun c => (c.tags, c.links))

/-- `old?.links || []`: the previously recorded link set of `p`. -/
def oldLinksOf (s : SweepState) (p : String) : List String :=
  match entryFor s.caches p with
  | some c => c.links
  | none => []

/-- The paths enqueued when processing `p` whose new link set is `newLinks`
(lines 531-541): when a link view is active, the symmetric difference of the
old and new link sets, restricted to paths that resolve to vault files. -/
def enqueueOf (v : VaultModel) (s : SweepState) (p : String)
    (newLinks : List String) : List String :=
  let oldLinks := oldLinksOf s p
  let all := unique (oldLinks ++ newLinks)
  let diffs := all.filter (fun l =>
    !(oldLinks.contains l) || !(newLinks.contains l))
  if v.linkViewActive then diffs.filter (fun l => v.files.contains l) else []

/-- One iteration of the do-while loop (lines 519-547): shift a path, drop its
old cache entry, recompute its data, enqueue the vault-resolvable symmetric
difference of old and new links (link view only), and append the new entry.
(Cache paths are unique — they originate from the vault's file list — so
dropping by path matches the source's removal of the found entry.) -/
def sweepStep (v : VaultModel) (s : SweepState) : SweepState :=
  match s.queue with
  | [] => s
  | p :: rest =>
    let removed := s.caches.filter (fun c => c.path ≠ p)
    match v.current p with
    | none => { caches := removed, queue := rest }
    | some td =>
      { caches := removed ++ [{ path := p, tags := td.1, links := td.2 }],
        queue := rest ++ enqueueOf v s p td.2 }

/-! ## Change scheduler (`loadFileInfoAsync`, lines 772-801)

Each change notification for a file enqueues its path (deduplicated by path),
cancels the pending timer and arms a fresh one; a timer that fires drains the
whole queue into a single `loadFileInfos` call.  Timer handles are modelled by
identifiers: `clearTimeout` makes a superseded handle's firing a no-op, and
only the most recently armed handle is `pending`. -/

/-- `loadFileQueue` enqueue with per-path deduplication (lines 783-788). -/
def jsEnq (q : List String) (p : String) : List String :=
  if q.contains p then q else q ++ [p]

/-- Scheduler state: the pending queue, the live timer handle (if any), a
fresh-handle counter, and the accumulated `loadFileInfos` call arguments. -/
structure SchedState where
  queue : List String
  pending : Option Nat
  nextId : Nat
  calls : List (List String)
deriving DecidableEq

/-- External stimuli: a change notification for a path, or the firing of a
previously armed timer handle. -/
inductive SchedEvent
  | notify (path : String)
  | fire (id : Nat)
deriving DecidableEq

/-- One scheduler transition.  `notify` is `loadFileInfoAsync(diff)` with a
present diff (enqueue if absent, clear and re-arm the timer); `fire` is the
timer callback (lines 792-800), a no-op for a cancelled handle. -/
def schedStep (s : SchedState) : SchedEvent → SchedState
  | .notify p =>
    { s with
      queue := jsEnq s.queue p
      pending := some s.nextId
      nextId := s.nextId + 1 }
  | .fire id =>
    if s.pending = some id then
      if s.queue.isEmpty then { s with pending := none }
      else { s with queue := [], pending := none,
                    calls := s.calls ++ [s.queue] }
    else s

/-- Run the scheduler over a sequence of events. -/
def schedRun (s : SchedState) (es : List SchedEvent) : SchedState :=
  es.foldl schedStep s

/-- The scheduler's initial state (empty queue, no timer armed). -/
def schedInit : SchedState := { queue := [], pending := none, nextId := 0, calls := [] }

/-! ## Recompute pass guard (`loadFileInfos`, lines 735-757) -/

/-- The plugin state that `loadFileInfos` touches: the re-entrancy flag
`processingFileInfo`, the notification queue `loadFileQueue`, and whether a
drain timer is armed. -/
structure LoadState where
  processing : Bool
  loadFileQueue : List String
  timerArmed : Bool
deriving DecidableEq

/-- `loadFileInfoAsync(diff)` with a present diff, as it affects `LoadState`:
enqueue the path (deduplicated) and (re-)arm the drain timer. -/
def loadFileInfoAsyncModel (s : LoadState) (p : String) : LoadState :=
  { s with loadFileQueue := jsEnq s.loadFileQueue p, timerArmed := true }

/-- `loadFileInfos(diffs)`.  When a pass is already in flight the diffs are
individually re-queued via `loadFileInfoAsync` and no pass starts; otherwise
the pass body runs under `try`/`finally` with the `processing` flag set, and
the flag is cleared whether or not the body throws.  `body` abstracts the pass
body (cache update, view refresh); its `Bool` result records whether it threw.
Returns the new state and whether a pass was started. -/
def loadFileInfosModel (body : LoadState → LoadState × Bool) (s : LoadState)
    (diffs : List String) : LoadState × Bool :=
  if s.processing then
    (diffs.foldl loadFileInfoAsyncModel s, false)
  else
    let r := body { s with processing := true }
    ({ r.1 with processing := false }, true)

/-! ## General lemmas -/

theorem foldl_dedup_mem {α : Type} [DecidableEq α] (l : List α) (acc : List α)
    (x : α) :
    (x ∈ l.foldl (fun acc x => if x ∈ acc then acc else acc ++ [x]) acc) ↔
      x ∈ acc ∨ x ∈ l := by
  induction l generalizing acc with
  | nil => simp
  | cons y l ih =>
    rw [List.foldl_cons, ih]
    by_cases hy : y ∈ acc
    · simp only [if_pos hy, List.mem_cons]
      constructor
      · rintro (h | h)
        · exact Or.inl h
        · exact Or.inr (Or.inr h)
      · rintro (h | rfl | h)
        · exact Or.inl h
        · exact Or.inl hy
        · exact Or.inr h
    · simp only [if_neg hy, List.mem_append, List.mem_singleton, List.mem_cons]
      tauto

theorem mem_unique_iff {α : Type} [DecidableEq α] (l : List α) (x : α) :
    x ∈ unique l ↔ x ∈ l := by
  rw [unique, foldl_dedup_mem]
  simp

theorem contains_true_iff {α : Type} [BEq α] [LawfulBEq α] (l : List α)
    (x : α) : l.contains x = true ↔ x ∈ l :=
  List.elem_iff

theorem contains_false_iff {α : Type} [BEq α] [LawfulBEq α] (l : List α)
    (x : α) : l.contains x = false ↔ x ∉ l := by
  rw [Bool.eq_false_iff]
  exact not_congr (contains_true_iff l x)

/-! ## Claim C6 (`updateFileCachesAll` mtime skip) -/

/-- A file whose recorded mtime equals its current mtime, the input on which
the rescan filter misbehaves. -/
def c6File : TFile :=
  { path := "a.md", basename := "a", extension := "md",
    stat := { mtime := 100, ctime := 1 } }

/-- Claim C6: the claim states that `updateFileCachesAll` skips every file
whose `parsedFileCache` entry equals its current `stat.mtime`.  In the code
the filter line parses as `get(path) ?? (0 != mtime)` (a precedence slip), so
a file with a recorded mtime of `100` equal to its current mtime is still
selected for reprocessing — the truthy recorded number wins — whereas the
spec-intended predicate `(get(path) ?? 0) != mtime` would skip it.  The whole
rescan therefore never skips by mtime (and `fileCaches` is rebuilt from the
selected files only, so a skipped file's cache would not even be retained). -/
theorem claim_C6_code_bug :
    processFilePred [("a.md", 100)] c6File = true ∧
      specProcessFilePred [("a.md", 100)] c6File = false ∧
      updateFileCachesAllProc [("a.md", 100)] [c6File] = [c6File] := by
  decide

/-! ## Claim C10 (ignore-folders precedence over target-folders) -/

/-- Claim C10: in `getItemsList`, a file whose lowercased path starts with an
`ignoreFolders` entry contributes no items, regardless of `targetFolders`;
and when `targetFolders` is non-empty, a file matching none of its entries
contributes no items, regardless of `ignoreFolders`.  (`getItemsList` is the
concatenation of `itemsForFile` over the caches, so an empty contribution is
exclusion from the returned list.) -/
theorem claim_C10_prop (cfg : Settings) (ti : List (String × TagInfo))
    (search : String) (today : Int) (mode : Mode) (fc : FileCache)
    (h : (∃ e ∈ parseFolders cfg.ignoreFolders,
            jsStartsWith (jsToLower fc.file.path) e = true) ∨
         (parseFolders cfg.targetFolders ≠ [] ∧
            ∀ e ∈ parseFolders cfg.targetFolders,
              jsStartsWith (jsToLower fc.file.path) e = false)) :
    itemsForFile cfg ti search today mode fc = [] := by
  have hskip : skippedByFolders cfg fc.file.path = true := by
    rw [skippedByFolders]
    rcases h with ⟨e, he, hs⟩ | ⟨hne, hall⟩
    · have hne : e ≠ "" := by
        rw [parseFolders] at he
        simpa using (List.mem_filter.mp he).2
      refine Bool.or_eq_true _ _ |>.mpr (Or.inr ?_)
      exact List.any_eq_true.mpr ⟨e, he, by simp [hne, hs]⟩
    · refine Bool.or_eq_true _ _ |>.mpr (Or.inl ?_)
      refine Bool.and_eq_true _ _ |>.mpr ⟨?_, ?_⟩
      · simpa using List.length_pos.mpr hne
      · simp only [Bool.not_eq_true']
        refine List.any_eq_false.mpr ?_
        intro e he
        simp [hall e he]
  simp [itemsForFile, hskip]

/-- Witness for C10 at a concrete input: path `tpl/x.md` matches both the
target entry `tpl` and the ignore entry `tpl`, and is excluded. -/
theorem claim_C10_witness :
    itemsForFile { targetFolders := "tpl", ignoreFolders := "tpl" } [] "" 0
      Mode.tag
      { file := { path := "tpl/x.md", basename := "x", extension := "md",
                  stat := { mtime := 1, ctime := 1 } },
        links := [], tags := ["#t"] } = [] :=
  claim_C10_prop _ _ _ _ _ _
    (Or.inl ⟨"tpl", by decide, by decide⟩)

/-! ## Claim C3 (unknown sort key fallback) -/

/-- The concrete corrupted sort configuration used to refute C3. -/
def c3Settings : Settings := { sortType := "XYZ_DESC" }

/-- Two items with distinct display names. -/
def c3ItemA : ViewItem :=
  { tags := [], extraTags := [], path := "a.md", displayName := "a",
    ancestors := [], mtime := 0, ctime := 0, filename := "a", links := [] }

/-- Same as `c3ItemA` with display name `b`. -/
def c3ItemB : ViewItem :=
  { c3ItemA with path := "b.md", displayName := "b", filename := "b" }

/-- Counterexample to C3: for the unrecognized `sortType = "XYZ_DESC"`, the
comparator returned by `getCompareMethodItems` is display-name *descending*
(the `invert` factor is computed from `contains('_DESC')` before the switch),
not the display-name ascending comparator the claim requires. -/
theorem claim_C3_counterexample :
    getCompareMethodItems c3Settings c3ItemA c3ItemB = 1 ∧
      compare c3ItemA.displayName c3ItemB.displayName = -1 := by
  decide

/-- Claim C3 (amended): for every `sortType` outside the ten recognized
`key_direction` strings, `getCompareMethodItems` returns the display-name
comparator multiplied by the direction factor derived from whether the string
contains `_DESC` — i.e. display-name *ascending* only when the unknown string
does not contain `_DESC` — and, being a total function, it never throws. -/
theorem claim_C3_prop (s : Settings)
    (h : s.sortType ∉ ["DISPNAME_ASC", "DISPNAME_DESC", "FULLPATH_ASC",
      "FULLPATH_DESC", "MTIME_ASC", "MTIME_DESC", "CTIME_ASC", "CTIME_DESC",
      "NAME_ASC", "NAME_DESC"]) :
    getCompareMethodItems s = fun a b =>
      compare a.displayName b.displayName *
        (if strContains s.sortType "_DESC" then -1 else 1) := by
  simp only [List.mem_cons, List.not_mem_nil, or_false, not_or] at h
  obtain ⟨h1, h2, h3, h4, h5, h6, h7, h8, h9, h10⟩ := h
  simp [getCompareMethodItems, h1, h2, h3, h4, h5, h6, h7, h8, h9, h10]

/-- Witness for C3 at the concrete corrupted key `XYZ_DESC`. -/
theorem claim_C3_witness :
    getCompareMethodItems c3Settings = fun a b =>
      compare a.displayName b.displayName *
        (if strContains c3Settings.sortType "_DESC" then -1 else 1) :=
  claim_C3_prop c3Settings (by decide)

/-! ## Claim C9 (re-entrancy guard of `loadFileInfos`) -/

theorem loadAsync_foldl_processing (diffs : List String) (s : LoadState) :
    (diffs.foldl loadFileInfoAsyncModel s).processing = s.processing := by
  induction diffs generalizing s with
  | nil => rfl
  | cons d diffs ih => rw [List.foldl_cons, ih]; rfl

theorem loadAsync_foldl_mem_mono (diffs : List String) (s : LoadState)
    (p : String) (hq : p ∈ s.loadFileQueue) :
    p ∈ (diffs.foldl loadFileInfoAsyncModel s).loadFileQueue := by
  induction diffs generalizing s with
  | nil => exact hq
  | cons e diffs ih =>
    rw [List.foldl_cons]
    refine ih (loadFileInfoAsyncModel s e) ?_
    simp only [loadFileInfoAsyncModel, jsEnq]
    split
    · exact hq
    · exact List.mem_append_left _ hq

theorem loadAsync_foldl_mem (diffs : List String) (s : LoadState) (p : String)
    (hp : p ∈ diffs) :
    p ∈ (diffs.foldl loadFileInfoAsyncModel s).loadFileQueue := by
  induction diffs generalizing s with
  | nil => cases hp
  | cons d diffs ih =>
    rw [List.foldl_cons]
    rcases List.mem_cons.mp hp with rfl | hp
    · refine loadAsync_foldl_mem_mono diffs _ p ?_
      simp only [loadFileInfoAsyncModel, jsEnq]
      split
      · next h => exact (contains_true_iff _ _).mp h
      · simp
    · exact ih (loadFileInfoAsyncModel s d) hp

theorem loadAsync_foldl_timer (diffs : List String) (s : LoadState)
    (h : diffs ≠ []) :
    (diffs.foldl loadFileInfoAsyncModel s).timerArmed = true := by
  induction diffs generalizing s with
  | nil => cases h rfl
  | cons d diffs ih =>
    rw [List.foldl_cons]
    rcases diffs with _ | ⟨e, diffs⟩
    · rfl
    · exact ih _ (by simp)

/-- Claim C9: while `processingFileInfo` is set, `loadFileInfos` starts no
second pass; it re-queues every diff path via `loadFileInfoAsync` (so each
lands in `loadFileQueue` with the drain timer armed, to be applied by a
follow-up pass), and it leaves the in-flight pass's flag alone.  When no pass
is in flight, the `try`/`finally` block clears the flag on return regardless
of whether the pass body throws. -/
theorem claim_C9_prop (body : LoadState → LoadState × Bool) (s : LoadState)
    (diffs : List String) :
    (s.processing = true →
      (loadFileInfosModel body s diffs).2 = false ∧
      (∀ p ∈ diffs, p ∈ (loadFileInfosModel body s diffs).1.loadFileQueue) ∧
      (diffs ≠ [] → (loadFileInfosModel body s diffs).1.timerArmed = true) ∧
      (loadFileInfosModel body s diffs).1.processing = true) ∧
    (s.processing = false →
      (loadFileInfosModel body s diffs).1.processing = false) := by
  constructor
  · intro hp
    have h1 : loadFileInfosModel body s diffs =
        (diffs.foldl loadFileInfoAsyncModel s, false) := by
      simp [loadFileInfosModel, hp]
    rw [h1]
    exact ⟨rfl, fun p h => loadAsync_foldl_mem diffs s p h,
      fun h => loadAsync_foldl_timer diffs s h,
      by rw [loadAsync_foldl_processing]; exact hp⟩
  · intro hp
    simp [loadFileInfosModel, hp]

/-- Witness for C9 at a concrete input: a busy state receiving one diff, and
an idle state whose pass body throws. -/
theorem claim_C9_witness :
    (loadFileInfosModel (fun st => (st, true))
        { processing := true, loadFileQueue := [], timerArmed := false }
        ["a.md"]).2 = false ∧
    "a.md" ∈ (loadFileInfosModel (fun st => (st, true))
        { processing := true, loadFileQueue := [], timerArmed := false }
        ["a.md"]).1.loadFileQueue ∧
    (loadFileInfosModel (fun st => (st, true))
        { processing := false, loadFileQueue := [], timerArmed := false }
        ["a.md"]).1.processing = false :=
  ⟨((claim_C9_prop (fun st => (st, true))
      { processing := true, loadFileQueue := [], timerArmed := false }
      ["a.md"]).1 rfl).1,
   ((claim_C9_prop (fun st => (st, true))
      { processing := true, loadFileQueue := [], timerArmed := false }
      ["a.md"]).1 rfl).2.1 "a.md" (by decide),
   (claim_C9_prop (fun st => (st, true))
      { processing := false, loadFileQueue := [], timerArmed := false }
      ["a.md"]).2 rfl⟩

/-! ## Claim C8 (debounce coalescing) -/

theorem schedRun_notifies (ps : List String) (s0 : SchedState) :
    schedRun s0 (ps.map SchedEvent.notify) =
      { queue := ps.foldl jsEnq s0.queue,
        pending := if ps = [] then s0.pending
          else some (s0.nextId + ps.length - 1),
        nextId := s0.nextId + ps.length,
        calls := s0.calls } := by
  induction ps generalizing s0 with
  | nil => simp [schedRun]
  | cons p ps ih =>
    rw [List.map_cons, schedRun, List.foldl_cons]
    have hstep : schedStep s0 (SchedEvent.notify p) =
        { queue := jsEnq s0.queue p, pending := some s0.nextId,
          nextId := s0.nextId + 1, calls := s0.calls } := rfl
    rw [hstep]
    have hfold : List.foldl schedStep
        { queue := jsEnq s0.queue p, pending := some s0.nextId,
          nextId := s0.nextId + 1, calls := s0.calls }
        (ps.map SchedEvent.notify) =
      schedRun
        { queue := jsEnq s0.queue p, pending := some s0.nextId,
          nextId := s0.nextId + 1, calls := s0.calls }
        (ps.map SchedEvent.notify) := rfl
    rw [hfold, ih]
    by_cases hps : ps = []
    · subst hps; simp
    · rw [if_neg hps, if_neg (List.cons_ne_nil p ps)]
      rw [SchedState.mk.injEq]
      refine ⟨by rw [List.foldl_cons], ?_, ?_, rfl⟩
      · simp only [Option.some.injEq, List.length_cons]
        have := List.length_pos.mpr hps
        omega
      · simp only [List.length_cons]
        omega

theorem jsEnq_foldl_nodup : ∀ ps q : List String, ps.Nodup →
    (∀ x ∈ ps, x ∉ q) → ps.foldl jsEnq q = q ++ ps := by
  intro ps
  induction ps with
  | nil => intro q _ _; simp
  | cons p ps ih =>
    intro q hnd hq
    rw [List.foldl_cons]
    have hpq : jsEnq q p = q ++ [p] := by
      rw [jsEnq, if_neg]
      intro hcon
      exact hq p (List.mem_cons_self _ _) ((contains_true_iff q p).mp hcon)
    have hnd2 := List.nodup_cons.mp hnd
    have hq2 : ∀ x ∈ ps, x ∉ q ++ [p] := by
      intro x hx hmem
      rcases List.mem_append.mp hmem with hxq | hxp
      · exact hq x (List.mem_cons_of_mem _ hx) hxq
      · have hxp2 : x = p := by simpa using hxp
        exact hnd2.1 (hxp2 ▸ hx)
    rw [hpq, ih (q ++ [p]) hnd2.2 hq2]
    simp

/-- Firing a cancelled (non-pending) timer handle leaves the scheduler
untouched. -/
theorem schedRun_stale_fires (ids : List Nat) (s : SchedState)
    (h : ∀ i ∈ ids, s.pending ≠ some i) :
    schedRun s (ids.map SchedEvent.fire) = s := by
  induction ids with
  | nil => rfl
  | cons i ids ih =>
    rw [List.map_cons, schedRun, List.foldl_cons]
    have hstep : schedStep s (SchedEvent.fire i) = s := by
      simp only [schedStep]
      rw [if_neg (h i (List.mem_cons_self _ _))]
    rw [hstep]
    exact ih fun j hj => h j (List.mem_cons_of_mem _ hj)

/-- The scheduler state after the N notifications have been delivered,
before any timer fires. -/
def schedMid (ps : List String) : SchedState :=
  { queue := ps, pending := some (ps.length - 1), nextId := ps.length,
    calls := [] }

/-- Claim C8: N change notifications for N distinct paths arriving before any
of their timers fires produce, once the timers run, exactly one
`loadFileInfos` call whose argument is exactly the N paths (in arrival order,
without duplicates): the N-1 superseded timer handles were cancelled and fire
as no-ops, and the queue is fully drained by the single surviving handle. -/
theorem claim_C8_prop (ps : List String) (h1 : ps ≠ []) (h2 : ps.Nodup) :
    (schedRun schedInit (ps.map SchedEvent.notify ++
        (List.range ps.length).map SchedEvent.fire)).calls = [ps] ∧
    (schedRun schedInit (ps.map SchedEvent.notify ++
        (List.range ps.length).map SchedEvent.fire)).queue = [] := by
  have hq : ps.foldl jsEnq ([] : List String) = ps := by
    simpa using jsEnq_foldl_nodup ps [] h2 (by simp)
  have hS : schedRun schedInit (ps.map SchedEvent.notify) = schedMid ps := by
    rw [schedRun_notifies, if_neg h1]
    simp [schedInit, schedMid, hq]
  have hsplit : schedRun schedInit (ps.map SchedEvent.notify ++
      (List.range ps.length).map SchedEvent.fire) =
      schedRun (schedMid ps) ((List.range ps.length).map SchedEvent.fire) := by
    rw [schedRun, List.foldl_append]
    rw [show List.foldl schedStep schedInit (ps.map SchedEvent.notify) =
      schedRun schedInit (ps.map SchedEvent.notify) from rfl, hS]
    rfl
  obtain hn : ps.length = (ps.length - 1) + 1 := by
    have := List.length_pos.mpr h1
    omega
  have hrange : List.range ps.length =
      List.range (ps.length - 1) ++ [ps.length - 1] := by
    rw [hn, List.range_succ]
    simp
  have hstale : schedRun (schedMid ps)
      ((List.range (ps.length - 1)).map SchedEvent.fire) = schedMid ps := by
    refine schedRun_stale_fires _ _ ?_
    intro i hi
    have hilt : i < ps.length - 1 := List.mem_range.mp hi
    simp only [schedMid, ne_eq, Option.some.injEq]
    omega
  have hfire : schedStep (schedMid ps) (SchedEvent.fire (ps.length - 1)) =
      { queue := [], pending := none, nextId := ps.length,
        calls := [ps] } := by
    simp only [schedStep, schedMid]
    rw [if_pos trivial, if_neg (by simp [h1])]
    simp
  rw [hsplit, hrange, List.map_append, schedRun, List.foldl_append]
  rw [show List.foldl schedStep (schedMid ps)
      ((List.range (ps.length - 1)).map SchedEvent.fire) =
    schedRun (schedMid ps) ((List.range (ps.length - 1)).map SchedEvent.fire)
    from rfl, hstale]
  rw [show List.foldl schedStep (schedMid ps)
      ([ps.length - 1].map SchedEvent.fire) =
    schedStep (schedMid ps) (SchedEvent.fire (ps.length - 1)) from rfl, hfire]
  exact ⟨rfl, rfl⟩

/-- Witness for C8 with three concrete notifications. -/
theorem claim_C8_witness :
    (schedRun schedInit (["a", "b", "c"].map SchedEvent.notify ++
        (List.range (["a", "b", "c"] : List String).length).map
          SchedEvent.fire)).calls = [["a", "b", "c"]] :=
  (claim_C8_prop ["a", "b", "c"] (by decide) (by decide)).1

/-! ## Pipeline lemmas shared by C1, C2 and C5 -/

theorem unique_singleton {α : Type} [DecidableEq α] (x : α) :
    unique [x] = [x] := by
  simp [unique]

theorem uniqueCI_singleton (x : String) :
    uniqueCaseIntensive [x] = [x] := by
  simp [uniqueCaseIntensive]

/-- When none of the three skip checks fires, the per-file loop body reduces
to the expansion of the document's effective tags. -/
theorem itemsForFile_eq_expand (cfg : Settings) (ti : List (String × TagInfo))
    (search : String) (today : Int) (mode : Mode) (fc : FileCache)
    (hf : skippedByFolders cfg fc.file.path = false)
    (hd : skippedByDocTags cfg (tagsPreFilter cfg ti today mode fc) = false)
    (hs : searchSkipped search (tagsPreFilter cfg ti today mode fc)
        (getFileTitle cfg fc.file) = false) :
    itemsForFile cfg ti search today mode fc =
      expandItems cfg mode (effTags cfg ti today mode fc) fc := by
  simp only [itemsForFile, hf, hd, hs, Bool.false_eq_true, if_false, effTags]

/-- The default (single item) branch of the expansion. -/
theorem expandItems_default (cfg : Settings) (mode : Mode)
    (allTags : List String) (fc : FileCache)
    (hdn : cfg.disableNarrowingDown = false) :
    expandItems cfg mode allTags fc = [mkViewItem cfg fc allTags []] := by
  rw [expandItems, if_neg]
  rintro ⟨h1, -⟩
  rw [hdn] at h1
  cases h1

/-- The per-tag branch of the expansion when no archive tag matches. -/
theorem expandItems_perTag (cfg : Settings) (allTags : List String)
    (fc : FileCache) (hdn : cfg.disableNarrowingDown = true)
    (harch : allTags.filter (fun e =>
        (parseCommaNoSpace cfg.archiveTags).contains (jsToLower e)) = []) :
    expandItems cfg Mode.tag allTags fc =
      allTags.map (fun t =>
        mkViewItem cfg fc [t] (allTags.filter (fun e => e != t))) := by
  rw [expandItems, if_pos ⟨hdn, rfl⟩]
  simp only [harch, List.isEmpty_nil, if_true]

/-! ## Claim C1 (narrowing-down expansion count) -/

/-- A document carrying exactly the raw tags `#p`, `#q`, `#r`. -/
def fcPQR : FileCache :=
  { file := { path := "n.md", basename := "n", extension := "md",
              stat := { mtime := 5, ctime := 3 } },
    links := [], tags := ["#p", "#q", "#r"] }

/-- Counterexample to C1: the claim maps "narrowing-down enabled"
(`disableNarrowingDown = false`) to the 3-item expansion, but with the
default settings (narrowing-down enabled) a three-tag document yields a
single ViewItem, and the 3-item per-tag expansion occurs precisely when
`disableNarrowingDown = true`. -/
theorem claim_C1_counterexample :
    (getItemsList {} [] "" 0 Mode.tag [fcPQR]).length = 1 ∧
      (getItemsList { disableNarrowingDown := true } [] "" 0 Mode.tag
        [fcPQR]).length = 3 := by
  decide

/-- Claim C1 (amended): for a document whose effective tag list is exactly
`[p, q, r]` (pairwise distinct, none matching `archiveTags`) and which no
filter skips, `getItemsList`'s per-file contribution in tag mode is: three
ViewItems, each with a single-tag `tags` and the other two tags as
`extraTags`, when `disableNarrowingDown` is **true** (narrowing-down
disabled); and one ViewItem carrying all three tags with empty `extraTags`
when `disableNarrowingDown` is **false** (narrowing-down enabled). -/
theorem claim_C1_prop (cfg : Settings) (ti : List (String × TagInfo))
    (search : String) (today : Int) (fc : FileCache) (p q r : String)
    (hf : skippedByFolders cfg fc.file.path = false)
    (hd : skippedByDocTags cfg (tagsPreFilter cfg ti today Mode.tag fc) =
      false)
    (hs : searchSkipped search (tagsPreFilter cfg ti today Mode.tag fc)
        (getFileTitle cfg fc.file) = false)
    (he : effTags cfg ti today Mode.tag fc = [p, q, r])
    (harch : [p, q, r].filter (fun e =>
        (parseCommaNoSpace cfg.archiveTags).contains (jsToLower e)) = [])
    (hpq : p ≠ q) (hpr : p ≠ r) (hqr : q ≠ r) :
    itemsForFile cfg ti search today Mode.tag fc =
      if cfg.disableNarrowingDown then
        [mkViewItem cfg fc [p] [q, r], mkViewItem cfg fc [q] [p, r],
          mkViewItem cfg fc [r] [p, q]]
      else [mkViewItem cfg fc [p, q, r] []] := by
  rw [itemsForFile_eq_expand cfg ti search today Mode.tag fc hf hd hs, he]
  have epp : (p != p) = false := by simp
  have eqq : (q != q) = false := by simp
  have err : (r != r) = false := by simp
  have eqp : (q != p) = true := bne_iff_ne.mpr (Ne.symm hpq)
  have erp : (r != p) = true := bne_iff_ne.mpr (Ne.symm hpr)
  have epq : (p != q) = true := bne_iff_ne.mpr hpq
  have erq : (r != q) = true := bne_iff_ne.mpr (Ne.symm hqr)
  have epr : (p != r) = true := bne_iff_ne.mpr hpr
  have eqr : (q != r) = true := bne_iff_ne.mpr hqr
  cases hdn : cfg.disableNarrowingDown with
  | false =>
    rw [if_neg (by simp), expandItems_default cfg Mode.tag _ fc hdn]
  | true =>
    rw [if_pos rfl, expandItems_perTag cfg _ fc hdn harch]
    simp only [List.map_cons, List.map_nil, List.filter_cons,
      List.filter_nil, epp, eqq, err, eqp, erp, epq, erq, epr, eqr,
      Bool.false_eq_true, if_true, if_false]

/-- Witness for C1 with concrete tags `p`, `q`, `r` and narrowing-down
disabled. -/
theorem claim_C1_witness :
    itemsForFile { disableNarrowingDown := true } [] "" 0 Mode.tag fcPQR =
      if ({ disableNarrowingDown := true } : Settings).disableNarrowingDown
      then
        [mkViewItem { disableNarrowingDown := true } fcPQR ["p"] ["q", "r"],
          mkViewItem { disableNarrowingDown := true } fcPQR ["q"] ["p", "r"],
          mkViewItem { disableNarrowingDown := true } fcPQR ["r"] ["p", "q"]]
      else [mkViewItem { disableNarrowingDown := true } fcPQR ["p", "q", "r"]
        []] :=
  claim_C1_prop _ [] "" 0 fcPQR "p" "q" "r" (by decide) (by decide)
    (by decide) (by decide) (by decide) (by decide) (by decide) (by decide)

/-! ## Claim C2 (untagged fallback) -/

/-- A document whose only raw tag is `#a`. -/
def fcTagA : FileCache :=
  { file := { path := "a.md", basename := "a", extension := "md",
              stat := { mtime := 5, ctime := 3 } },
    links := [], tags := ["#a"] }

/-- Counterexample to C2: a document all of whose tags are in `ignoreTags`
does not receive the `_untagged` sentinel (the substitution happens before
the ignore filter): with narrowing-down enabled it yields one ViewItem whose
`tags` is empty, and with `disableNarrowingDown` it is dropped entirely. -/
theorem claim_C2_counterexample :
    getItemsList { ignoreTags := "a" } [] "" 0 Mode.tag [fcTagA] =
        [mkViewItem { ignoreTags := "a" } fcTagA [] []] ∧
      getItemsList { ignoreTags := "a", disableNarrowingDown := true } [] ""
        0 Mode.tag [fcTagA] = [] := by
  decide

/-- Claim C2 (amended): the `_untagged` sentinel is substituted only when the
document's tag list is empty *before* ignore-list filtering (and before
virtual-tag injection): a document with zero raw tags (with redirects,
virtual tags and canvas marker out of play, and `_untagged` not itself
ignored or archived) contributes exactly one ViewItem tagged `_untagged`;
whereas a document whose effective tag list was emptied by the ignore filter
contributes one ViewItem with *empty* tags when `disableNarrowingDown` is
false, and nothing at all when it is true. -/
theorem claim_C2_prop (cfg : Settings) (ti : List (String × TagInfo))
    (search : String) (today : Int) (fc : FileCache)
    (hf : skippedByFolders cfg fc.file.path = false)
    (hd : skippedByDocTags cfg (tagsPreFilter cfg ti today Mode.tag fc) =
      false)
    (hs : searchSkipped search (tagsPreFilter cfg ti today Mode.tag fc)
        (getFileTitle cfg fc.file) = false) :
    (fc.tags = [] → cfg.useTagInfo = false →
      fc.file.extension ≠ "canvas" → cfg.useVirtualTag = false →
      cfg.displayFolderAsTag = false →
      (parseCommaNoSpace cfg.ignoreTags).contains "_untagged" = false →
      (parseCommaNoSpace cfg.archiveTags).contains "_untagged" = false →
      itemsForFile cfg ti search today Mode.tag fc =
        [mkViewItem cfg fc ["_untagged"] []]) ∧
    (effTags cfg ti today Mode.tag fc = [] →
      itemsForFile cfg ti search today Mode.tag fc =
        if cfg.disableNarrowingDown then [] else [mkViewItem cfg fc [] []]) := by
  constructor
  · intro h1 hti hcanvas hvt hfol hign harch
    have hR : redirectPairs cfg ti = [] := by simp [redirectPairs, hti]
    have hraw : rawTagsRedirected [] fc = [] := by
      simp [rawTagsRedirected, h1, unique]
    have hbase : baseTagsForMode cfg [] Mode.tag fc = ["_untagged"] := by
      simp [baseTagsForMode, hraw]
    have hvirt : tagsWithVirtual cfg today fc ["_untagged"] =
        ["_untagged"] := by
      simp [tagsWithVirtual, hcanvas, hvt, hfol]
    have hpre : tagsPreFilter cfg ti today Mode.tag fc = ["_untagged"] := by
      rw [tagsPreFilter, hR, hbase, hvirt]
      simp [applyRedirect, uniqueCI_singleton]
    have hlow : jsToLower "_untagged" = "_untagged" := by decide
    have hign2 : "_untagged" ∉ parseCommaNoSpace cfg.ignoreTags :=
      (contains_false_iff _ _).mp hign
    have harch2 : "_untagged" ∉ parseCommaNoSpace cfg.archiveTags :=
      (contains_false_iff _ _).mp harch
    have heff : effTags cfg ti today Mode.tag fc = ["_untagged"] := by
      simp [effTags, applyIgnoreTags, hpre, hlow, hign2]
    rw [itemsForFile_eq_expand cfg ti search today Mode.tag fc hf hd hs, heff]
    cases hdn : cfg.disableNarrowingDown with
    | false => rw [expandItems_default cfg Mode.tag _ fc hdn]
    | true =>
      rw [expandItems_perTag cfg _ fc hdn (by simp [hlow, harch2])]
      simp
  · intro heff
    rw [itemsForFile_eq_expand cfg ti search today Mode.tag fc hf hd hs, heff]
    cases hdn : cfg.disableNarrowingDown with
    | false =>
      rw [if_neg (by simp), expandItems_default cfg Mode.tag _ fc hdn]
    | true =>
      rw [if_pos rfl, expandItems_perTag cfg _ fc hdn (by simp)]
      simp

/-- A document with zero raw tags. -/
def fcNoTags : FileCache :=
  { file := { path := "u.md", basename := "u", extension := "md",
              stat := { mtime := 2, ctime := 2 } },
    links := [], tags := [] }

/-- Witness for C2: a zero-tag document gets the sentinel; a document whose
tags the ignore list removed yields an item with empty tags. -/
theorem claim_C2_witness :
    itemsForFile ({} : Settings) [] "" 0 Mode.tag fcNoTags =
        [mkViewItem {} fcNoTags ["_untagged"] []] ∧
      itemsForFile { ignoreTags := "a" } [] "" 0 Mode.tag fcTagA =
        if ({ ignoreTags := "a" } : Settings).disableNarrowingDown then []
        else [mkViewItem { ignoreTags := "a" } fcTagA [] []] :=
  ⟨(claim_C2_prop {} [] "" 0 fcNoTags (by decide) (by decide)
      (by decide)).1 rfl rfl (by decide) rfl rfl (by decide) (by decide),
   (claim_C2_prop { ignoreTags := "a" } [] "" 0 fcTagA (by decide)
      (by decide) (by decide)).2 (by decide)⟩

/-! ## Claim C5 (tag redirection chain depth) -/

/-- Counterexample to C5: with redirects `a → b` and `b → c`, a document
whose raw tag is `#a` is grouped under `c` — the first redirection round maps
`a` to `b` and the re-application at line 639 maps `b` on to `c` — never
under `b` as the claim states. -/
theorem claim_C5_counterexample :
    (getItemsList { useTagInfo := true }
        [("a", { redirect := some "b" }), ("b", { redirect := some "c" })]
        "" 0 Mode.tag [fcTagA]).map (fun i => i.tags) = [["c"]] ∧
      (getItemsList { useTagInfo := true }
        [("a", { redirect := some "b" }), ("b", { redirect := some "c" })]
        "" 0 Mode.tag [fcTagA]).all (fun i => !(i.tags.contains "b")) =
        true := by
  decide

/-- Claim C5 (amended): redirection is applied exactly twice (once on the raw
tags, once over the combined set), so for redirects `a → b`, `b → c`, `c → e`
a document with raw tag `a` is grouped under `c`: the two-hop chain *is*
followed, and the chain is not followed past the second hop (the `c → e`
redirect is not applied). -/
theorem claim_C5_prop (cfg : Settings) (search : String) (today : Int)
    (fc : FileCache) (a b c e t : String)
    (hb : b ≠ "") (hc : c ≠ "") (he0 : e ≠ "") (hba : b ≠ a)
    (ht : fc.tags = [t]) (hdrop : jsDrop t 1 = a)
    (hnest : cfg.disableNestedTags = false) (hti : cfg.useTagInfo = true)
    (hcanvas : fc.file.extension ≠ "canvas") (hvt : cfg.useVirtualTag = false)
    (hfol : cfg.displayFolderAsTag = false)
    (hdn : cfg.disableNarrowingDown = false)
    (hf : skippedByFolders cfg fc.file.path = false)
    (hd : skippedByDocTags cfg (tagsPreFilter cfg
        [(a, { redirect := some b }), (b, { redirect := some c }),
          (c, { redirect := some e })] today Mode.tag fc) = false)
    (hs : searchSkipped search (tagsPreFilter cfg
        [(a, { redirect := some b }), (b, { redirect := some c }),
          (c, { redirect := some e })] today Mode.tag fc)
        (getFileTitle cfg fc.file) = false)
    (hignc : (parseCommaNoSpace cfg.ignoreTags).contains (jsToLower c) =
      false) :
    itemsForFile cfg
        [(a, { redirect := some b }), (b, { redirect := some c }),
          (c, { redirect := some e })] search today Mode.tag fc =
      [mkViewItem cfg fc [c] []] := by
  have hR : redirectPairs cfg
      [(a, { redirect := some b }), (b, { redirect := some c }),
        (c, { redirect := some e })] = [(a, b), (b, c), (c, e)] := by
    simp [redirectPairs, hti, hb, hc, he0]
  have hba2 : (b == a) = false := beq_eq_false_iff_ne.mpr hba
  have hAa : applyRedirect [(a, b), (b, c), (c, e)] a = b := by
    simp [applyRedirect, List.lookup]
  have hAb : applyRedirect [(a, b), (b, c), (c, e)] b = c := by
    simp [applyRedirect, List.lookup, hba2]
  have hraw : rawTagsRedirected [(a, b), (b, c), (c, e)] fc = [b] := by
    rw [rawTagsRedirected, ht, unique_singleton]
    simp [hdrop, hAa, unique_singleton]
  have hbase : baseTagsForMode cfg [(a, b), (b, c), (c, e)] Mode.tag fc =
      [b] := by
    simp [baseTagsForMode, hraw, hnest]
  have hvirt : tagsWithVirtual cfg today fc [b] = [b] := by
    simp [tagsWithVirtual, hcanvas, hvt, hfol]
  have hpre : tagsPreFilter cfg
      [(a, { redirect := some b }), (b, { redirect := some c }),
        (c, { redirect := some e })] today Mode.tag fc = [c] := by
    rw [tagsPreFilter, hR, hbase, hvirt]
    simp [hAb, uniqueCI_singleton]
  have hignc2 : jsToLower c ∉ parseCommaNoSpace cfg.ignoreTags :=
    (contains_false_iff _ _).mp hignc
  have heff : effTags cfg
      [(a, { redirect := some b }), (b, { redirect := some c }),
        (c, { redirect := some e })] today Mode.tag fc = [c] := by
    simp [effTags, applyIgnoreTags, hpre, hignc2]
  rw [itemsForFile_eq_expand _ _ search today Mode.tag fc hf hd hs, heff,
    expandItems_default cfg Mode.tag _ fc hdn]

/-- Witness for C5 with the concrete chain `a → b → c → e`. -/
theorem claim_C5_witness :
    itemsForFile { useTagInfo := true }
        [("a", { redirect := some "b" }), ("b", { redirect := some "c" }),
          ("c", { redirect := some "e" })] "" 0 Mode.tag fcTagA =
      [mkViewItem { useTagInfo := true } fcTagA ["c"] []] :=
  claim_C5_prop { useTagInfo := true } "" 0 fcTagA "a" "b" "c" "e" "#a"
    (by decide) (by decide) (by decide) (by decide) rfl (by decide) rfl rfl
    (by decide) rfl rfl rfl (by decide) (by decide) (by decide) (by decide)

/-! ## Claim C4 (MTIME_DESC ordering and tie behaviour) -/

/-- The comparator selected for `sortType = "MTIME_DESC"`:
`(a, b) => (a.mtime - b.mtime) * -1`. -/
def cmpMtimeDesc (a b : ViewItem) : Int :=
  (a.mtime - b.mtime) * (-1)

theorem getCompare_mtime_desc (cfg : Settings)
    (h : cfg.sortType = "MTIME_DESC") :
    getCompareMethodItems cfg = cmpMtimeDesc := by
  have hsc : strContains "MTIME_DESC" "_DESC" = true := by decide
  funext a b
  simp [getCompareMethodItems, h, hsc, cmpMtimeDesc]

theorem cmpMtimeDesc_lt_iff (a b : ViewItem) :
    cmpMtimeDesc a b < 0 ↔ b.mtime < a.mtime := by
  rw [cmpMtimeDesc]
  omega

theorem mem_insertJS {α : Type} (cmp : α → α → Int) (x : α) (l : List α)
    (a : α) : a ∈ insertJS cmp x l ↔ a = x ∨ a ∈ l := by
  induction l with
  | nil => simp [insertJS]
  | cons y ys ih =>
    rw [insertJS]
    split <;> simp [List.mem_cons, ih]
    tauto

theorem insertJS_sorted (x : ViewItem) (l : List ViewItem)
    (h : List.Pairwise (fun a b => b.mtime ≤ a.mtime) l) :
    List.Pairwise (fun a b => b.mtime ≤ a.mtime)
      (insertJS cmpMtimeDesc x l) := by
  induction l with
  | nil => simp [insertJS]
  | cons y ys ih =>
    rw [insertJS]
    rcases List.pairwise_cons.mp h with ⟨hy, hys⟩
    split
    · next hlt =>
      have hyx : y.mtime < x.mtime := (cmpMtimeDesc_lt_iff x y).mp hlt
      refine List.pairwise_cons.mpr ⟨?_, h⟩
      intro b hb
      rcases List.mem_cons.mp hb with rfl | hb
      · omega
      · have := hy b hb
        omega
    · next hnlt =>
      have hxy : x.mtime ≤ y.mtime := by
        have := (cmpMtimeDesc_lt_iff x y).not.mp hnlt
        omega
      refine List.pairwise_cons.mpr ⟨?_, ih hys⟩
      intro b hb
      rcases (mem_insertJS _ _ _ _).mp hb with rfl | hb
      · exact hxy
      · exact hy b hb

theorem filter_insertJS (x : ViewItem) (l : List ViewItem) (m : Int)
    (h : List.Pairwise (fun a b => b.mtime ≤ a.mtime) l) :
    (insertJS cmpMtimeDesc x l).filter (fun v => decide (v.mtime = m)) =
      l.filter (fun v => decide (v.mtime = m)) ++
        (if x.mtime = m then [x] else []) := by
  induction l with
  | nil => simp [insertJS, List.filter_cons]
  | cons y ys ih =>
    rw [insertJS]
    rcases List.pairwise_cons.mp h with ⟨hy, hys⟩
    split
    · next hlt =>
      have hyx : y.mtime < x.mtime := (cmpMtimeDesc_lt_iff x y).mp hlt
      by_cases hxm : x.mtime = m
      · have hnil : (y :: ys).filter (fun v => decide (v.mtime = m)) = [] := by
          rw [List.filter_eq_nil_iff]
          intro v hv
          rcases List.mem_cons.mp hv with rfl | hv
          · simp only [decide_eq_true_eq]
            omega
          · have := hy v hv
            simp only [decide_eq_true_eq]
            omega
        rw [List.filter_cons, if_pos (by simpa using hxm), hnil, if_pos hxm]
        rfl
      · rw [List.filter_cons, if_neg (by simpa using hxm), if_neg hxm,
          List.append_nil]
    · next hnlt =>
      rw [List.filter_cons, List.filter_cons, ih hys]
      by_cases hym : y.mtime = m <;> by_cases hxm : x.mtime = m <;>
        simp [hym, hxm]

theorem sortJS_foldl_sorted (l acc : List ViewItem)
    (h : List.Pairwise (fun a b => b.mtime ≤ a.mtime) acc) :
    List.Pairwise (fun a b => b.mtime ≤ a.mtime)
      (l.foldl (fun acc x => insertJS cmpMtimeDesc x acc) acc) := by
  induction l generalizing acc with
  | nil => exact h
  | cons x l ih =>
    rw [List.foldl_cons]
    exact ih _ (insertJS_sorted x acc h)

theorem sortJS_foldl_filter (l acc : List ViewItem) (m : Int)
    (h : List.Pairwise (fun a b => b.mtime ≤ a.mtime) acc) :
    (l.foldl (fun acc x => insertJS cmpMtimeDesc x acc) acc).filter
        (fun v => decide (v.mtime = m)) =
      acc.filter (fun v => decide (v.mtime = m)) ++
        l.filter (fun v => decide (v.mtime = m)) := by
  induction l generalizing acc with
  | nil => simp
  | cons x l ih =>
    rw [List.foldl_cons, ih _ (insertJS_sorted x acc h),
      filter_insertJS x acc m h, List.filter_cons]
    by_cases hxm : x.mtime = m
    · rw [if_pos hxm, if_pos (by simpa using hxm), List.append_assoc]
      rfl
    · rw [if_neg hxm, if_neg (by simpa using hxm), List.append_nil]

/-- Counterexample to C4: two documents with equal mtime and different paths
published in the two possible scan orders yield the two different item
orders, so the relative order of equal-mtime items is a function of the
`fileCaches` scan order, not of the items themselves — there is no
deterministic item-based tie-break. -/
theorem claim_C4_counterexample :
    (applyFileInfoToView { sortType := "MTIME_DESC" } [] "" 0
        [{ file := { path := "x.md", basename := "x", extension := "md",
                     stat := { mtime := 7, ctime := 1 } },
           links := [], tags := ["#t"] },
         { file := { path := "y.md", basename := "y", extension := "md",
                     stat := { mtime := 7, ctime := 1 } },
           links := [], tags := ["#t"] }]).map (fun i => i.path) =
      ["x.md", "y.md"] ∧
    (applyFileInfoToView { sortType := "MTIME_DESC" } [] "" 0
        [{ file := { path := "y.md", basename := "y", extension := "md",
                     stat := { mtime := 7, ctime := 1 } },
           links := [], tags := ["#t"] },
         { file := { path := "x.md", basename := "x", extension := "md",
                     stat := { mtime := 7, ctime := 1 } },
           links := [], tags := ["#t"] }]).map (fun i => i.path) =
      ["y.md", "x.md"] := by
  decide

/-- Claim C4 (amended): for `sortType = "MTIME_DESC"` the published item list
is ordered by non-increasing mtime, and items of equal mtime keep exactly the
relative order in which `getItemsList` produced them (stable sort over the
scan order of `fileCaches`) — the tie order is an artifact of scan order, not
a function of the items alone. -/
theorem claim_C4_prop (cfg : Settings) (ti : List (String × TagInfo))
    (search : String) (today : Int) (fileCaches : List FileCache)
    (h : cfg.sortType = "MTIME_DESC") :
    List.Pairwise (fun a b => b.mtime ≤ a.mtime)
      (applyFileInfoToView cfg ti search today fileCaches) ∧
    ∀ m : Int,
      (applyFileInfoToView cfg ti search today fileCaches).filter
          (fun v => decide (v.mtime = m)) =
        (getItemsList cfg ti search today Mode.tag fileCaches).filter
          (fun v => decide (v.mtime = m)) := by
  rw [applyFileInfoToView, getCompare_mtime_desc cfg h, sortJS]
  exact ⟨sortJS_foldl_sorted _ [] (by simp),
    fun m => by rw [sortJS_foldl_filter _ [] m (by simp)]; rfl⟩

/-- Witness for C4 on a concrete two-document corpus with an mtime tie. -/
theorem claim_C4_witness :
    List.Pairwise (fun a b => b.mtime ≤ a.mtime)
      (applyFileInfoToView { sortType := "MTIME_DESC" } [] "" 0
        [{ file := { path := "x.md", basename := "x", extension := "md",
                     stat := { mtime := 7, ctime := 1 } },
           links := [], tags := ["#t"] },
         { file := { path := "y.md", basename := "y", extension := "md",
                     stat := { mtime := 7, ctime := 1 } },
           links := [], tags := ["#t"] }]) ∧
    (applyFileInfoToView { sortType := "MTIME_DESC" } [] "" 0
        [{ file := { path := "x.md", basename := "x", extension := "md",
                     stat := { mtime := 7, ctime := 1 } },
           links := [], tags := ["#t"] },
         { file := { path := "y.md", basename := "y", extension := "md",
                     stat := { mtime := 7, ctime := 1 } },
           links := [], tags := ["#t"] }]).filter
        (fun v => decide (v.mtime = 7)) =
      (getItemsList { sortType := "MTIME_DESC" } [] "" 0 Mode.tag
        [{ file := { path := "x.md", basename := "x", extension := "md",
                     stat := { mtime := 7, ctime := 1 } },
           links := [], tags := ["#t"] },
         { file := { path := "y.md", basename := "y", extension := "md",
                     stat := { mtime := 7, ctime := 1 } },
           links := [], tags := ["#t"] }]).filter
        (fun v => decide (v.mtime = 7)) :=
  ⟨(claim_C4_prop { sortType := "MTIME_DESC" } [] "" 0 _ rfl).1,
    (claim_C4_prop { sortType := "MTIME_DESC" } [] "" 0 _ rfl).2 7⟩

/-! ## Claim C7 (termination and enqueue set of the link sweep)

Termination does not come from a visited set (the code has none): it comes
from convergence of the cache.  Processing a path always overwrites its cache
entry with the current snapshot data, so reprocessing a path whose entry is
already current enqueues nothing; the number of "dirty" paths (entry differs
from the snapshot) strictly decreases whenever one is processed, and every
enqueued path lies in the finite vault. -/

theorem entryFor_filter_self (caches : List CacheEntry) (p : String) :
    entryFor (caches.filter (fun c => c.path ≠ p)) p = none := by
  rw [entryFor, List.find?_eq_none]
  intro c hc
  have h2 := (List.mem_filter.mp hc).2
  simp only [decide_eq_true_eq] at h2 ⊢
  exact h2

theorem entryFor_filter_other (caches : List CacheEntry) (p q : String)
    (hq : q ≠ p) :
    entryFor (caches.filter (fun c => c.path ≠ p)) q = entryFor caches q := by
  rw [entryFor, entryFor]
  induction caches with
  | nil => rfl
  | cons c cs ih =>
    by_cases hc : c.path = q
    · rw [List.filter_cons, if_pos (by simp [hc, hq]),
        List.find?_cons_of_pos _ (by simp [hc]),
        List.find?_cons_of_pos _ (by simp [hc])]
    · rw [List.filter_cons]
      by_cases hcp : c.path = p
      · rw [if_neg (by simp [hcp]), List.find?_cons_of_neg _ (by simp [hc])]
        exact ih
      · rw [if_pos (by simp [hcp]), List.find?_cons_of_neg _ (by simp [hc]),
          List.find?_cons_of_neg _ (by simp [hc])]
        exact ih

theorem entryFor_append_self (caches : List CacheEntry) (p : String)
    (e : CacheEntry) (he : e.path = p) :
    entryFor (caches.filter (fun c => c.path ≠ p) ++ [e]) p = some e := by
  have h1 := entryFor_filter_self caches p
  rw [entryFor] at h1 ⊢
  rw [List.find?_append, h1]
  simp [List.find?, he]

theorem entryFor_append_other (caches : List CacheEntry) (p q : String)
    (e : CacheEntry) (hq : q ≠ p) (he : e.path = p) :
    entryFor (caches.filter (fun c => c.path ≠ p) ++ [e]) q =
      entryFor caches q := by
  have h1 := entryFor_filter_other caches p q hq
  rw [entryFor] at h1 ⊢
  rw [List.find?_append, h1]
  have h2 : [e].find? (fun c => decide (c.path = q)) = none := by
    simp [List.find?, he, Ne.symm hq]
  rw [h2, Option.or_none]

theorem sweepStep_none (v : VaultModel) (s : SweepState) (p : String)
    (rest : List String) (hq : s.queue = p :: rest)
    (hcur : v.current p = none) :
    sweepStep v s =
      { caches := s.caches.filter (fun c => c.path ≠ p), queue := rest } := by
  simp only [sweepStep, hq, hcur]

theorem sweepStep_some (v : VaultModel) (s : SweepState) (p : String)
    (rest : List String) (td : List String × List String)
    (hq : s.queue = p :: rest) (hcur : v.current p = some td) :
    sweepStep v s =
      { caches := s.caches.filter (fun c => c.path ≠ p) ++
          [{ path := p, tags := td.1, links := td.2 }],
        queue := rest ++ enqueueOf v s p td.2 } := by
  simp only [sweepStep, hq, hcur]

theorem sweepStep_none_caches (v : VaultModel) (s : SweepState) (p : String)
    (rest : List String) (hq : s.queue = p :: rest)
    (hcur : v.current p = none) :
    (sweepStep v s).caches = s.caches.filter (fun c => c.path ≠ p) := by
  rw [sweepStep_none v s p rest hq hcur]

theorem sweepStep_none_queue (v : VaultModel) (s : SweepState) (p : String)
    (rest : List String) (hq : s.queue = p :: rest)
    (hcur : v.current p = none) :
    (sweepStep v s).queue = rest := by
  rw [sweepStep_none v s p rest hq hcur]

theorem sweepStep_some_caches (v : VaultModel) (s : SweepState) (p : String)
    (rest : List String) (td : List String × List String)
    (hq : s.queue = p :: rest) (hcur : v.current p = some td) :
    (sweepStep v s).caches = s.caches.filter (fun c => c.path ≠ p) ++
      [{ path := p, tags := td.1, links := td.2 }] := by
  rw [sweepStep_some v s p rest td hq hcur]

theorem sweepStep_some_queue (v : VaultModel) (s : SweepState) (p : String)
    (rest : List String) (td : List String × List String)
    (hq : s.queue = p :: rest) (hcur : v.current p = some td) :
    (sweepStep v s).queue = rest ++ enqueueOf v s p td.2 := by
  rw [sweepStep_some v s p rest td hq hcur]

theorem sweep_clean_self (v : VaultModel) (s : SweepState) (p : String)
    (rest : List String) (hq : s.queue = p :: rest) :
    entryData (sweepStep v s).caches p = v.current p := by
  cases hcur : v.current p with
  | none =>
    rw [sweepStep_none_caches v s p rest hq hcur, entryData,
      entryFor_filter_self]
    rfl
  | some td =>
    rw [sweepStep_some_caches v s p rest td hq hcur, entryData,
      entryFor_append_self s.caches p
        { path := p, tags := td.1, links := td.2 } rfl]
    rfl

theorem sweep_other (v : VaultModel) (s : SweepState) (p q : String)
    (rest : List String) (hq : s.queue = p :: rest) (hqp : q ≠ p) :
    entryData (sweepStep v s).caches q = entryData s.caches q := by
  cases hcur : v.current p with
  | none =>
    rw [sweepStep_none_caches v s p rest hq hcur, entryData,
      entryFor_filter_other _ _ _ hqp, entryData]
  | some td =>
    rw [sweepStep_some_caches v s p rest td hq hcur, entryData,
      entryFor_append_other s.caches p q
        { path := p, tags := td.1, links := td.2 } hqp rfl, entryData]

theorem oldLinksOf_of_clean (v : VaultModel) (s : SweepState) (p : String)
    (td : List String × List String) (hcur : v.current p = some td)
    (hclean : entryData s.caches p = v.current p) :
    oldLinksOf s p = td.2 := by
  rw [oldLinksOf]
  cases hef : entryFor s.caches p with
  | none =>
    rw [entryData, hef, hcur] at hclean
    cases hclean
  | some c =>
    rw [entryData, hef, hcur] at hclean
    have := Option.some.inj hclean
    exact congrArg Prod.snd this

theorem sweep_clean_queue (v : VaultModel) (s : SweepState) (p : String)
    (rest : List String) (hq : s.queue = p :: rest)
    (hclean : entryData s.caches p = v.current p) :
    (sweepStep v s).queue = rest := by
  cases hcur : v.current p with
  | none => rw [sweepStep_none_queue v s p rest hq hcur]
  | some td =>
    rw [sweepStep_some_queue v s p rest td hq hcur]
    have henq : enqueueOf v s p td.2 = [] := by
      rw [enqueueOf, oldLinksOf_of_clean v s p td hcur hclean]
      have hdiffs : (unique (td.2 ++ td.2)).filter (fun l =>
          !(td.2.contains l) || !(td.2.contains l)) = [] := by
        rw [List.filter_eq_nil_iff]
        intro l hl
        have hmem : l ∈ td.2 := by
          have := (mem_unique_iff _ _).mp hl
          simpa using this
        simpa using hmem
      rw [hdiffs]
      split
      · rfl
      · rfl
    rw [henq, List.append_nil]

theorem sweep_queue_subset (v : VaultModel) (s : SweepState) (p : String)
    (rest : List String) (hq : s.queue = p :: rest) :
    ∀ x ∈ (sweepStep v s).queue, x ∈ rest ∨ x ∈ v.files := by
  intro x hx
  cases hcur : v.current p with
  | none =>
    rw [sweepStep_none_queue v s p rest hq hcur] at hx
    exact Or.inl hx
  | some td =>
    rw [sweepStep_some_queue v s p rest td hq hcur] at hx
    rcases List.mem_append.mp hx with h | h
    · exact Or.inl h
    · rw [enqueueOf] at h
      split at h
      · have := (List.mem_filter.mp h).2
        exact Or.inr ((contains_true_iff _ _).mp this)
      · cases h

/-- Paths with a stale cache entry, counted over a fixed finite universe. -/
def dirtyCount (v : VaultModel) (U : List String)
    (caches : List CacheEntry) : Nat :=
  U.countP (fun p => decide (entryData caches p ≠ v.current p))

theorem countP_lt_of_flip (f g : String → Bool) (p : String) :
    ∀ U : List String, (∀ x ∈ U, x ≠ p → g x = f x) → f p = true →
      g p = false → p ∈ U → U.countP g < U.countP f := by
  intro U
  induction U with
  | nil =>
    intro _ _ _ hmem
    cases hmem
  | cons a U ih =>
    intro hagree hfp hgp hmem
    rw [List.countP_cons, List.countP_cons]
    by_cases hap : a = p
    · rw [hap, hfp, hgp]
      have hle : U.countP g ≤ U.countP f := by
        refine List.countP_mono_left ?_
        intro x hx hgx
        by_cases hxp : x = p
        · rw [hxp, hgp] at hgx
          cases hgx
        · rw [← hagree x (List.mem_cons_of_mem _ hx) hxp]
          exact hgx
      rw [if_neg (by simp), if_pos rfl]
      omega
    · rw [hagree a (List.mem_cons_self _ _) hap]
      have hmem2 : p ∈ U := by
        rcases List.mem_cons.mp hmem with h | h
        · exact absurd h.symm hap
        · exact h
      have hlt := ih (fun x hx hxp => hagree x (List.mem_cons_of_mem _ hx)
        hxp) hfp hgp hmem2
      omega

theorem sweepAux (v : VaultModel) (U : List String)
    (hfiles : ∀ x ∈ v.files, x ∈ U) :
    ∀ m k : Nat, ∀ s : SweepState, (∀ x ∈ s.queue, x ∈ U) →
      dirtyCount v U s.caches ≤ m → s.queue.length ≤ k →
      ∃ n, ((sweepStep v)^[n] s).queue = [] := by
  intro m
  induction m using Nat.strong_induction_on with
  | _ m ihm =>
    intro k
    induction k with
    | zero =>
      intro s hqU hc hl
      refine ⟨0, ?_⟩
      rw [Function.iterate_zero_apply]
      exact List.length_eq_zero.mp (Nat.le_zero.mp hl)
    | succ k ihk =>
      intro s hqU hc hl
      cases hqe : s.queue with
      | nil =>
        refine ⟨0, ?_⟩
        rw [Function.iterate_zero_apply]
        exact hqe
      | cons p rest =>
        have hpU : p ∈ U := hqU p (by rw [hqe]; exact List.mem_cons_self _ _)
        have hq'U : ∀ x ∈ (sweepStep v s).queue, x ∈ U := by
          intro x hx
          rcases sweep_queue_subset v s p rest hqe x hx with h | h
          · exact hqU x (by rw [hqe]; exact List.mem_cons_of_mem _ h)
          · exact hfiles x h
        by_cases hclean : entryData s.caches p = v.current p
        · have hq2 : (sweepStep v s).queue = rest :=
            sweep_clean_queue v s p rest hqe hclean
          have hcount : dirtyCount v U (sweepStep v s).caches =
              dirtyCount v U s.caches := by
            rw [dirtyCount, dirtyCount]
            refine List.countP_congr ?_
            intro x hx
            by_cases hxp : x = p
            · subst hxp
              simp [sweep_clean_self v s x rest hqe, hclean]
            · rw [sweep_other v s p x rest hqe hxp]
          have hlen : rest.length ≤ k := by
            have : s.queue.length = rest.length + 1 := by rw [hqe]; rfl
            omega
          obtain ⟨n, hn⟩ := ihk (sweepStep v s) hq'U
            (by rw [hcount]; exact hc) (by rw [hq2]; exact hlen)
          exact ⟨n + 1, by rw [Function.iterate_succ_apply]; exact hn⟩
        · have hlt : dirtyCount v U (sweepStep v s).caches <
              dirtyCount v U s.caches := by
            rw [dirtyCount, dirtyCount]
            refine countP_lt_of_flip _ _ p U ?_ ?_ ?_ hpU
            · intro x hx hxp
              rw [sweep_other v s p x rest hqe hxp]
            · simp [hclean]
            · simp [sweep_clean_self v s p rest hqe]
          have hmlt : dirtyCount v U (sweepStep v s).caches < m := by omega
          obtain ⟨n, hn⟩ := ihm (dirtyCount v U (sweepStep v s).caches) hmlt
            ((sweepStep v s).queue.length) (sweepStep v s) hq'U le_rfl le_rfl
          exact ⟨n + 1, by rw [Function.iterate_succ_apply]; exact hn⟩

/-- The sweep empties its queue on every input, cyclic link graphs included. -/
theorem sweep_terminates (v : VaultModel) (s : SweepState) :
    ∃ n, ((sweepStep v)^[n] s).queue = [] :=
  sweepAux v (s.queue ++ v.files)
    (fun _ hx => List.mem_append_right _ hx)
    (dirtyCount v (s.queue ++ v.files) s.caches) s.queue.length s
    (fun _ hx => List.mem_append_left _ hx) le_rfl le_rfl

theorem sweep_enqueue_spec (v : VaultModel) (s : SweepState) (p : String)
    (rest : List String) (td : List String × List String)
    (hq : s.queue = p :: rest) (hcur : v.current p = some td)
    (hact : v.linkViewActive = true) (x : String) :
    x ∈ (sweepStep v s).queue ↔
      x ∈ rest ∨ (x ∈ symmDiff (oldLinksOf s p) td.2 ∧ x ∈ v.files) := by
  rw [sweepStep_some_queue v s p rest td hq hcur]
  rw [List.mem_append]
  have henq : x ∈ enqueueOf v s p td.2 ↔
      x ∈ symmDiff (oldLinksOf s p) td.2 ∧ x ∈ v.files := by
    rw [enqueueOf]
    simp only [hact, if_true]
    simp only [List.mem_filter, mem_unique_iff, List.mem_append, symmDiff,
      Bool.or_eq_true, Bool.not_eq_true', ← Bool.not_eq_true,
      contains_true_iff, decide_eq_true_eq]
    constructor
    · rintro ⟨⟨hmem, hnboth⟩, hfile⟩
      refine ⟨?_, hfile⟩
      rcases hmem with h | h
      · rcases hnboth with hno | hnn
        · exact absurd h hno
        · exact Or.inl ⟨h, hnn⟩
      · rcases hnboth with hno | hnn
        · exact Or.inr ⟨h, hno⟩
        · exact absurd h hnn
    · rintro ⟨hsd, hfile⟩
      refine ⟨?_, hfile⟩
      rcases hsd with ⟨h1, h2⟩ | ⟨h1, h2⟩
      · exact ⟨Or.inl h1, Or.inr h2⟩
      · exact ⟨Or.inr h1, Or.inl h2⟩
  rw [henq]

/-- A state whose stale link target no longer exists in the vault. -/
def c7GoneVault : VaultModel :=
  { files := [],
    current := fun p => if p = "a.md" then some ([], []) else none,
    linkViewActive := true }

/-- The sweep state holding a cache entry whose old link set points at the
vanished file `x.md`. -/
def c7GoneState : SweepState :=
  { caches := [{ path := "a.md", tags := [], links := ["x.md"] }],
    queue := ["a.md"] }

/-- Counterexample to C7: `x.md` is in the symmetric difference of the old
(`["x.md"]`) and new (`[]`) link sets of `a.md`, yet processing `a.md`
enqueues nothing, because `x.md` resolves to no vault file — the loop does
not enqueue "exactly the paths in the symmetric difference". -/
theorem claim_C7_counterexample :
    (sweepStep c7GoneVault c7GoneState).queue = [] ∧
      "x.md" ∈ symmDiff (oldLinksOf c7GoneState "a.md") [] := by
  decide

/-- Claim C7 (amended): the do-while loop of `updateFileCaches` terminates on
every diff set and link graph (cyclic ones included) — bounded not by a
visited set but by cache convergence: a processed path's entry always becomes
current, so reprocessing it enqueues nothing — and each processed file with
current data `td` enqueues exactly the paths in the symmetric difference of
its old and new link sets *that resolve to files in the vault*. -/
theorem claim_C7_prop (v : VaultModel) (s : SweepState) :
    (∃ n, ((sweepStep v)^[n] s).queue = []) ∧
    (∀ p rest td, s.queue = p :: rest → v.current p = some td →
      v.linkViewActive = true →
      ∀ x, x ∈ (sweepStep v s).queue ↔
        x ∈ rest ∨ (x ∈ symmDiff (oldLinksOf s p) td.2 ∧ x ∈ v.files)) :=
  ⟨sweep_terminates v s,
    fun p rest td hq hcur hact x =>
      sweep_enqueue_spec v s p rest td hq hcur hact x⟩

/-- A two-file cyclic link graph (`a.md` and `b.md` link to each other). -/
def c7CycleVault : VaultModel :=
  { files := ["a.md", "b.md"],
    current := fun p =>
      if p = "a.md" then some ([], ["b.md"])
      else if p = "b.md" then some ([], ["a.md"])
      else none,
    linkViewActive := true }

/-- The sweep started on `a.md` with a cold cache. -/
def c7CycleState : SweepState := { caches := [], queue := ["a.md"] }

/-- Witness for C7 on the concrete cyclic vault. -/
theorem claim_C7_witness :
    (∃ n, ((sweepStep c7CycleVault)^[n] c7CycleState).queue = []) ∧
      ("b.md" ∈ (sweepStep c7CycleVault c7CycleState).queue ↔
        "b.md" ∈ ([] : List String) ∨
          ("b.md" ∈ symmDiff (oldLinksOf c7CycleState "a.md") ["b.md"] ∧
            "b.md" ∈ c7CycleVault.files)) :=
  ⟨(claim_C7_prop c7CycleVault c7CycleState).1,
    (claim_C7_prop c7CycleVault c7CycleState).2 "a.md" [] ([], ["b.md"])
      rfl (by decide) rfl "b.md"⟩

end TagFolder
